import Mathlib

/-!
Verification development for the skynet agent runtime (Go sources under
src/core).  The Go code is shallowly embedded: strings are lists of
characters, machine maps are association lists, goroutine-local state is
passed explicitly, and operations that can panic return an `Option`.
All definitions are executable so that concrete runs of the embedded code
can be checked by `decide`.
-/

/-- Go strings, embedded as lists of characters.  All Go string inputs that
matter for the verified properties are ASCII, where Go byte indexing and
character indexing coincide except where noted (`utf8Len`). -/
abbrev Str := List Char

/-- Turn a Lean string literal into the embedded representation. -/
def lc (s : String) : Str := s.toList

/-- The ASCII apostrophe character (code 39). -/
def apos : Char := Char.ofNat 39

/-- Case-insensitive character comparison, embedding the `(?i)` regexp flag
in Go `regexp` (ASCII folding; RE2 additionally folds a handful of exotic
Unicode points such as the Kelvin sign, which cannot occur in the marker
tags handled here). -/
def charCI (a b : Char) : Bool := a.toLower == b.toLower

/-- `isPrefixBy eq pat l` holds when `pat` matches the front of `l`
character-by-character under the comparison `eq`. -/
def isPrefixBy (eq : Char → Char → Bool) : Str → Str → Bool
  | [], _ => true
  | _ :: _, [] => false
  | p :: ps, c :: cs => eq p c && isPrefixBy eq ps cs

/-- Leftmost occurrence search: `splitFirstBy eq pat l = some (pre, rest)`
when `l = pre ++ m ++ rest` with `m` the leftmost match of `pat` under `eq`
(`m` has the length of `pat`); `none` when `pat` does not occur.  This is
the search step underlying both `strings.Contains`/`strings.SplitN` and the
literal-pattern regexps of the Go sanitizer. -/
def splitFirstBy (eq : Char → Char → Bool) (pat : Str) : Str → Option (Str × Str)
  | [] => if isPrefixBy eq pat [] then some ([], []) else none
  | c :: cs =>
    if isPrefixBy eq pat (c :: cs) then some ([], (c :: cs).drop pat.length)
    else
      match splitFirstBy eq pat cs with
      | some (pre, rest) => some (c :: pre, rest)
      | none => none

/-- Case-sensitive leftmost occurrence (Go `strings` package semantics). -/
def splitFirstCS (pat : Str) (l : Str) : Option (Str × Str) :=
  splitFirstBy (fun a b => a == b) pat l

/-- Case-insensitive leftmost occurrence (`(?i)` literal regexps). -/
def splitFirstCI (pat : Str) (l : Str) : Option (Str × Str) :=
  splitFirstBy charCI pat l

/-- Go `strings.Contains`. -/
def containsSub (pat l : Str) : Bool := (splitFirstCS pat l).isSome

/-- Whitespace class of RE2 `\s`, namely `[\t\n\f\r ]`. -/
def isRE2Space (c : Char) : Bool :=
  c == ' ' || c == '\t' || c == '\n' || c == Char.ofNat 12 || c == '\r'

/-- Whitespace recognized by Go `strings.TrimSpace` (the ASCII part:
space, TAB, LF, VT, FF, CR; the rare non-ASCII Unicode space points are
not needed for any text handled here). -/
def isGoSpace (c : Char) : Bool :=
  c == ' ' || c == '\t' || c == '\n' || c == Char.ofNat 11 ||
  c == Char.ofNat 12 || c == '\r'

/-- Go `strings.TrimSpace`. -/
def goTrimSpace (l : Str) : Str :=
  ((l.dropWhile isGoSpace).reverse.dropWhile isGoSpace).reverse

/-- Go `len` on a string counts UTF-8 bytes. -/
def utf8Len (l : Str) : Nat := (l.map Char.utf8Size).sum

/-- Go `strings.ToLower` (ASCII folding; see `charCI`). -/
def lowerStr (l : Str) : Str := l.map Char.toLower

/- ===== Response Sanitizer (cleanAgentResponse in the Go source) ===== -/

/-- The opening hidden-reasoning marker. -/
def thinkOpen : Str := lc "<think>"

/-- The closing hidden-reasoning marker. -/
def thinkClose : Str := lc "</think>"

/-- The opening reasoning-block marker. -/
def reasonOpen : Str := lc "<reasoning>"

/-- The closing reasoning-block marker. -/
def reasonClose : Str := lc "</reasoning>"

/-- One replace-all pass of the Go regexp `(?i)(?s)opn.*?cls`: repeatedly
delete from each leftmost (case-insensitive) occurrence of `opn` through
the nearest following `cls`, markers included, continuing the scan after
the deleted region; an occurrence of `opn` with no later `cls` is left in
place (the regexp has no match there).  The fuel argument bounds the
number of deleted regions; callers pass the text length, which always
suffices since every deletion consumes at least one character. -/
def stripPairedF (opn cls : Str) : Nat → Str → Str
  | 0, l => l
  | f + 1, l =>
    match splitFirstCI opn l with
    | none => l
    | some (pre, afterOpen) =>
      match splitFirstCI cls afterOpen with
      | none => l
      | some (_, afterClose) => pre ++ stripPairedF opn cls f afterClose

/-- Replace-all of `(?i)(?s)opn.*?cls` by the empty string. -/
def stripPaired (opn cls : Str) (l : Str) : Str :=
  stripPairedF opn cls l.length l

/-- One replace-all pass of the Go regexp `(?i)opn.*` (no `(?s)` flag, so
`.` stops at a newline): delete from each leftmost occurrence of `opn`
through the end of its line; the terminating newline itself is untouched
and scanning continues there. -/
def stripOpenLineF (opn : Str) : Nat → Str → Str
  | 0, l => l
  | f + 1, l =>
    match splitFirstCI opn l with
    | none => l
    | some (pre, afterOpen) =>
      pre ++ stripOpenLineF opn f (afterOpen.dropWhile (fun c => !(c == '\n')))

/-- Replace-all of `(?i)opn.*` by the empty string. -/
def stripOpenLine (opn : Str) (l : Str) : Str :=
  stripOpenLineF opn l.length l

/-- The first two sanitizer passes of the Go source: remove paired
`<think>...</think>` blocks, then remove any remaining unterminated
`<think>` marker through the end of its line. -/
def stripThinkTags (l : Str) : Str :=
  stripOpenLine thinkOpen (stripPaired thinkOpen thinkClose l)

/-- Replace-all of the Go regexp `\n\s*\n\s*\n+` by `"\n\n"`.  A match of
that pattern is a maximal-greedy run of whitespace that starts and ends
with a newline and contains at least three newlines; the replacement scan
continues after each match.  The fuel is the text length (each match
consumes at least three characters). -/
def collapseF : Nat → Str → Str
  | 0, l => l
  | _ + 1, [] => []
  | f + 1, c :: cs =>
    let ws := (c :: cs).takeWhile isRE2Space
    if c = '\n' ∧ 3 ≤ ws.count '\n' then
      -- the greedy match ends just after the last newline of the run
      let k := ws.length - (ws.reverse.takeWhile (fun x => !(x == '\n'))).length
      '\n' :: '\n' :: collapseF f ((c :: cs).drop k)
    else c :: collapseF f cs

/-- Replace-all of `\n\s*\n\s*\n+` by `"\n\n"` (blank-line collapsing). -/
def collapseNewlines (l : Str) : Str := collapseF l.length l

/-- The `Action Input:` literal used by the empty-tool-input repairs. -/
def actionInputKW : Str := lc "Action Input:"

/-- Position one past the last newline of `ws` (a run of whitespace), or
`none` when `ws` has no newline: the greedy extent of `\s*` constrained to
stop at a `(?m)$` position. -/
def lastNewlinePos (ws : Str) : Option Nat :=
  let t := (ws.reverse.takeWhile (fun x => !(x == '\n'))).length
  if t = ws.length then none else some (ws.length - 1 - t)

/-- Replace-all of the Go regexp `(?m)^Action Input:\s*$` by
`"Action Input: "`.  At each line start carrying the literal, the greedy
`\s*` runs to the end of the text (where `$` matches) or else up to the
last newline of the following whitespace run (`$` matches just before a
newline, which itself stays in place); without either, there is no match
on this line.  `atStart` tracks whether the scan position is at the start
of a line. -/
def fixAIEmptyF : Nat → Bool → Str → Str
  | 0, _, l => l
  | _ + 1, _, [] => []
  | f + 1, atStart, c :: cs =>
    if atStart && isPrefixBy (fun a b => a == b) actionInputKW (c :: cs) then
      let rest := (c :: cs).drop actionInputKW.length
      let ws := rest.takeWhile isRE2Space
      if rest.length == ws.length then
        lc "Action Input: "
      else
        match lastNewlinePos ws with
        | some p => lc "Action Input: " ++ fixAIEmptyF f false (rest.drop p)
        | none => c :: fixAIEmptyF f (c == '\n') cs
    else c :: fixAIEmptyF f (c == '\n') cs

/-- Replace-all of `(?m)^Action Input:\s*$` by `"Action Input: "`. -/
def fixAIEmpty (l : Str) : Str := fixAIEmptyF l.length true l

/-- Replace-all of the Go regexp `(?m)^Action Input:\s*\n` by
`"Action Input: \n"`.  Unlike `fixAIEmptyF` the newline is part of the
match (and of the replacement), and scanning resumes after it at a fresh
line start. -/
def fixAINewlineF : Nat → Bool → Str → Str
  | 0, _, l => l
  | _ + 1, _, [] => []
  | f + 1, atStart, c :: cs =>
    if atStart && isPrefixBy (fun a b => a == b) actionInputKW (c :: cs) then
      let rest := (c :: cs).drop actionInputKW.length
      let ws := rest.takeWhile isRE2Space
      match lastNewlinePos ws with
      | some p => lc "Action Input: " ++ '\n' :: fixAINewlineF f true (rest.drop (p + 1))
      | none => c :: fixAINewlineF f (c == '\n') cs
    else c :: fixAINewlineF f (c == '\n') cs

/-- Replace-all of `(?m)^Action Input:\s*\n` by `"Action Input: \n"`. -/
def fixAINewline (l : Str) : Str := fixAINewlineF l.length true l

/-- The tag-stripping and normalization core of `cleanAgentResponse`:
every transformation the Go method applies before the agent-format
classification (steps in source order: paired think strip, unterminated
think strip, paired reasoning strip, TrimSpace, blank-line collapsing, the
two empty `Action Input:` repairs). -/
def cleanCore (response : Str) : Str :=
  let c1 := stripThinkTags response
  let c2 := stripPaired reasonOpen reasonClose c1
  let c3 := goTrimSpace c2
  let c4 := collapseNewlines c3
  let c5 := fixAIEmpty c4
  fixAINewline c5

/-- The agent-format classifier of the Go source: the cleaned text is
trace-formatted when it contains one of the structural keywords. -/
def hasAgentFormat (c : Str) : Bool :=
  containsSub (lc "Thought:") c || containsSub (lc "Action:") c ||
  containsSub (lc "Final Answer:") c || containsSub (lc "Observation:") c

/-- The refusal marker tested by the Go source (lower-cased comparison). -/
def refusalPat : Str := lc "i don" ++ [apos] ++ lc "t"

/-- Fallback answer substituted for an empty cleaned response. -/
def fallbackMsg : Str :=
  lc "I understand your request but need to process it differently. Could you please rephrase your question?"

/-- Prefix used when wrapping a direct answer into trace format. -/
def wrapPrefix : Str :=
  lc "Thought: I can provide a direct answer to this question.\nFinal Answer: "

/-- The full Response Sanitizer, `cleanAgentResponse` in the Go source:
normalize via `cleanCore`, wrap substantial non-trace prose into a minimal
single-step trace, and substitute the fallback message for an empty
result. -/
def cleanAgentResponse (response : Str) : Str :=
  let cleaned := cleanCore response
  let cleaned2 :=
    if hasAgentFormat cleaned = false ∧ cleaned ≠ [] ∧ 50 < utf8Len cleaned ∧
        containsSub refusalPat (lowerStr cleaned) = false
    then wrapPrefix ++ cleaned
    else cleaned
  if cleaned2 = [] then fallbackMsg else cleaned2

/- ===== Streaming Orchestrator (executeWithStreaming, handleStreamChat,
getErrorMessage in the Go source) ===== -/

/-- Terminal status of a Go `context.Context`, as reported by `ctx.Err()`:
still live, cancelled through its cancel function, or past its deadline. -/
inductive CtxStatus
  | active
  | canceled
  | deadlineExceeded
deriving DecidableEq

deriving instance DecidableEq for Except

/-- Error substring emitted by the external trace parser on rejection. -/
def parseMarker : Str := lc "unable to parse agent output"

/-- The separator form used by `strings.SplitN` in the recovery path. -/
def parseMarkerColon : Str := parseMarker ++ lc ": "

/-- The final-answer structural keyword. -/
def finalAnswerKW : Str := lc "Final Answer:"

/-- The distinct timeout error constructed by `executeWithStreaming`. -/
def timeoutMsg : Str := lc "request timed out after 300 seconds"

/-- The distinct malformed-response error of the failed recovery path. -/
def malformedMsg : Str :=
  lc "the agent generated a malformed response that couldn" ++ [apos] ++ lc "t be parsed"

/-- The final-answer extraction of the recovery path: the Go regexp
`(?s)Final Answer:\s*(.*)` captures everything after the first
final-answer keyword, and the result is passed through `TrimSpace`
(the greedy `\s*` makes no difference after trimming); with no keyword the
whole cleaned text is used. -/
def extractFinalAnswer (c : Str) : Str :=
  match splitFirstCS finalAnswerKW c with
  | some pr => goTrimSpace pr.2
  | none => c

/-- `executeWithStreaming` in the Go source, after the external reasoning
engine call: `runRes` is the outcome of `chains.Run` (final text or error
string) and `ctx` the status of the run context when the orchestrator
inspects it.  Returns the surfaced outcome together with the number of
times the Response Sanitizer was invoked on the rejected raw text (the
recovery pass), so that single-shot recovery is a provable property of the
embedding.  Parse failures are recovered once via `cleanAgentResponse`;
any remaining error is replaced by the distinct timeout error when the
context deadline has passed. -/
def executeWithStreaming (runRes : Except Str Str) (ctx : CtxStatus) :
    Except Str Str × Nat :=
  let step : Except Str Str × Nat :=
    match runRes with
    | Except.ok r => (Except.ok r, 0)
    | Except.error e =>
      if containsSub parseMarker e = true then
        match splitFirstCS parseMarkerColon e with
        | some pr =>
          let cleaned := cleanAgentResponse pr.2
          if cleaned ≠ [] ∧ containsSub finalAnswerKW cleaned = true then
            (Except.ok (extractFinalAnswer cleaned), 1)
          else (Except.error malformedMsg, 1)
        | none => (Except.error malformedMsg, 0)
      else (Except.error e, 0)
  match step with
  | (Except.ok r, n) => (Except.ok r, n)
  | (Except.error e2, n) =>
    if ctx = CtxStatus.deadlineExceeded then (Except.error timeoutMsg, n)
    else (Except.error e2, n)

/-- `getErrorMessage` in the Go source: map an internal error to the
user-facing message by substring dispatch. -/
def getErrorMessage (e : Str) : Str :=
  lc "I encountered an error processing your request. " ++
  (if containsSub (lc "unable to parse") e = true then
    lc "The agent had trouble interpreting the tool output. Please try rephrasing your request."
  else if containsSub (lc "max iterations") e = true then
    lc "The request was too complex and required too many steps to complete. Please try breaking it down into simpler requests or be more specific about what you need."
  else if containsSub (lc "context") e = true then
    lc "The request timed out. Please try a simpler request."
  else
    lc "Please try again or contact support if the issue persists.")

/-- The generic fallback branch of `getErrorMessage`. -/
def genericFailureMsg : Str :=
  lc "I encountered an error processing your request. Please try again or contact support if the issue persists."

/-- A message of a conversation (ChatMessage in the Go source). -/
structure ChatMessage where
  role : String
  content : Str
  timestamp : Nat
deriving DecidableEq

/-- A conversation session (ChatSession in the Go source). -/
structure ChatSession where
  id : String
  messages : List ChatMessage
  created : Nat
  updated : Nat
deriving DecidableEq

/-- One streamed event (StreamMessage in the Go source; the fields the
verified properties depend on). -/
structure Ev where
  type : String
  content : Str
  complete : Bool
deriving DecidableEq

/-- The events every streaming run emits before the engine outcome is
known: the session id, the run (execution) id, and the two initial
thinking notices (one from `handleStreamChat`, one from
`executeWithStreaming`). -/
def streamPreEvents (sid eid : String) : List Ev :=
  [⟨"session", lc sid, false⟩, ⟨"execution_started", lc eid, false⟩,
   ⟨"thinking", lc "Processing your request...", false⟩,
   ⟨"thinking", lc "Processing your request...", false⟩]

/-- The event emitted for a cancelled run. -/
def stoppedEv : Ev := ⟨"stopped", lc "Agent execution was stopped", false⟩

/-- `handleStreamChat` in the Go source, from the point where the session
is resolved: append the human message, emit the prefix events, run the
turn, and finish with exactly one of the stopped/error/response endings;
only the success ending appends an assistant message.  `msgs0` is the
session message list before the turn, `rm` the request message, `runRes`
the engine outcome and `ctx` the context status at the end of the run.
Returns the emitted event sequence and the final session message list. -/
def handleStreamChat (msgs0 : List ChatMessage) (sid eid : String) (rm : Str)
    (runRes : Except Str Str) (ctx : CtxStatus) (now : Nat) :
    List Ev × List ChatMessage :=
  let msgs1 := msgs0 ++ [⟨"user", rm, now⟩]
  match (executeWithStreaming runRes ctx).1 with
  | Except.error e =>
    if ctx = CtxStatus.canceled then
      (streamPreEvents sid eid ++ [stoppedEv], msgs1)
    else
      (streamPreEvents sid eid ++ [⟨"error", getErrorMessage e, false⟩], msgs1)
  | Except.ok r =>
    (streamPreEvents sid eid ++
       [⟨"thinking", lc "Formatting response...", false⟩, ⟨"response", r, true⟩],
     msgs1 ++ [⟨"assistant", r, now⟩])

/- ===== Session Store (MemoryStore in the Go source) ===== -/

/-- The session map of the store, embedded as an association list with the
lookup discipline of a Go map (at most one binding per key in reachable
states; lookup takes the first binding). -/
abbrev SessionMap := List (String × ChatSession)

/-- Go map lookup. -/
def lookupSession (sid : String) : SessionMap → Option ChatSession
  | [] => none
  | (k, s) :: rest => if k = sid then some s else lookupSession sid rest

/-- `generateSessionID` in the Go source: a fresh identifier built from 16
cryptographically random bytes; the hex digest is a parameter of the
embedding (the embedding does not model entropy, only the shape of the
identifier). -/
def generateSessionID (randomHex : String) : String :=
  "session_" ++ randomHex

/-- `GetOrCreateSession` in the Go source.  `freshID` stands for the value
`generateSessionID` would produce, consumed only when the caller passes an
empty identifier; `now` is the current time.  Returns the session handed
to the caller and the updated store. -/
def GetOrCreateSession (store : SessionMap) (sessionID freshID : String)
    (now : Nat) : ChatSession × SessionMap :=
  let sid := if sessionID = "" then freshID else sessionID
  match lookupSession sid store with
  | none =>
    let s : ChatSession := ⟨sid, [], now, now⟩
    (s, (sid, s) :: store)
  | some s =>
    let s2 := { s with updated := now }
    (s2, store.map (fun p => if p.1 = sid then (sid, s2) else p))

/-- `GetSession` in the Go source: read-only lookup that refreshes the
last-activity timestamp on a hit.  Returns the session (if any), the
found flag, and the updated store. -/
def GetSession (store : SessionMap) (sid : String) (now : Nat) :
    (Option ChatSession × Bool) × SessionMap :=
  match lookupSession sid store with
  | some s =>
    let s2 := { s with updated := now }
    ((some s2, true), store.map (fun p => if p.1 = sid then (sid, s2) else p))
  | none => ((none, false), store)

/-- `DeleteSession` in the Go source: unconditional removal, reporting
whether the session existed. -/
def DeleteSession (store : SessionMap) (sid : String) : Bool × SessionMap :=
  match lookupSession sid store with
  | some _ => (true, store.filter (fun p => !(p.1 == sid)))
  | none => (false, store)

/-- `AddMessage` in the Go source (session level). -/
def AddMessage (s : ChatSession) (role : String) (content : Str) (now : Nat) :
    ChatSession :=
  { s with messages := s.messages ++ [⟨role, content, now⟩], updated := now }

/-- `GetRecentMessages` in the Go source.  The Go method slices the
backing array: `Messages[len-limit:]` panics with a slice-bounds error
whenever `len - limit` exceeds the slice capacity, so the embedding takes
the capacity `cap` of the backing array (`cap ≥ len` always; `cap = 0` for
a freshly created session) and returns `none` exactly when the Go code
panics. -/
def GetRecentMessages (msgs : List ChatMessage) (cap : Nat) (limit : Int) :
    Option (List ChatMessage) :=
  if (msgs.length : Int) ≤ limit then some msgs
  else
    let start : Int := (msgs.length : Int) - limit
    if start ≤ (cap : Int) then some (msgs.drop start.toNat) else none

/- ===== Snapshot aliasing (GetAllSessions in the Go source) ===== -/

/-- The store with explicit pointer structure: sessions live in a heap
(indexed by `Nat` references standing for Go pointers) and the map binds
identifiers to references.  `GetAllSessions` copies the reference list,
not the sessions, which is exactly what the Go code does with its slice of
`*ChatSession`. -/
structure MemoryStoreP where
  heap : List ChatSession
  entries : List (String × Nat)
deriving DecidableEq

/-- Reference bound to a session id in the store map. -/
def refOf (sid : String) : List (String × Nat) → Option Nat
  | [] => none
  | (k, r) :: rest => if k = sid then some r else refOf sid rest

/-- Dereference a session pointer. -/
def sessionAt (st : MemoryStoreP) (r : Nat) : Option ChatSession :=
  st.heap[r]?

/-- The session the store presents for an id (lookup then dereference). -/
def sessionOf (st : MemoryStoreP) (sid : String) : Option ChatSession :=
  (refOf sid st.entries).bind (sessionAt st)

/-- `GetAllSessions` in the Go source: a freshly allocated slice holding
the session pointers. -/
def GetAllSessions (st : MemoryStoreP) : List Nat :=
  st.entries.map (fun p => p.2)

/-- `AddMessage` invoked through a session pointer (for example one taken
out of a `GetAllSessions` snapshot): mutates the pointed-to session in the
heap. -/
def AddMessageRef (st : MemoryStoreP) (r : Nat) (role : String)
    (content : Str) (now : Nat) : MemoryStoreP :=
  match st.heap[r]? with
  | some s => { st with heap := st.heap.set r (AddMessage s role content now) }
  | none => st

/- ===== Execution Registry (CancelManager in the Go source) ===== -/

/-- The registry state: the execution map (id to cancellation trigger,
triggers identified by `Nat`) plus the history of trigger invocations, so
that exactly-once firing is a provable property of the embedding. -/
structure CancelManager where
  executions : List (String × Nat)
  fired : List Nat
deriving DecidableEq

/-- Go map lookup in the execution map. -/
def lookupExec (eid : String) : List (String × Nat) → Option Nat
  | [] => none
  | (k, t) :: rest => if k = eid then some t else lookupExec eid rest

/-- `AddExecution` in the Go source: unconditional insert, silently
overwriting a stale entry. -/
def AddExecution (cm : CancelManager) (eid : String) (t : Nat) : CancelManager :=
  { cm with executions := (eid, t) :: cm.executions.filter (fun p => !(p.1 == eid)) }

/-- `RemoveExecution` in the Go source: unconditional removal. -/
def RemoveExecution (cm : CancelManager) (eid : String) : CancelManager :=
  { cm with executions := cm.executions.filter (fun p => !(p.1 == eid)) }

/-- `CancelExecution` in the Go source: look the trigger up, and when
found invoke it (recorded in `fired`) and then remove the entry. -/
def CancelExecution (cm : CancelManager) (eid : String) : Bool × CancelManager :=
  match lookupExec eid cm.executions with
  | some t => (true, RemoveExecution { cm with fired := cm.fired ++ [t] } eid)
  | none => (false, cm)

/- ===== Helper lemmas ===== -/

theorem lookupExec_filter_self (eid : String) :
    ∀ l : List (String × Nat),
      lookupExec eid (l.filter (fun p => !(p.1 == eid))) = none := by
  intro l
  induction l with
  | nil => rfl
  | cons hd tl ih =>
    by_cases h : hd.1 = eid
    · simp [List.filter, h, ih]
    · have hb : (hd.1 == eid) = false := beq_eq_false_iff_ne.mpr h
      simp [List.filter, hb, lookupExec, h, ih]

/- ===== C4: cancellation idempotence ===== -/

/-- C4.  For every registry state, calling `CancelExecution` twice in
sequence with the same identifier returns `true` then `false` when the
identifier was registered (and `false` both times when it was never
registered), the entry is removed by the first successful call, and the
underlying cancellation trigger is invoked exactly once (the firing
history gains exactly one entry). -/
theorem cancelExecution_idempotent (cm : CancelManager) (eid : String) :
    (∀ t, lookupExec eid cm.executions = some t →
      (CancelExecution cm eid).1 = true
      ∧ (CancelExecution (CancelExecution cm eid).2 eid).1 = false
      ∧ lookupExec eid (CancelExecution cm eid).2.executions = none
      ∧ (CancelExecution cm eid).2.fired = cm.fired ++ [t]
      ∧ (CancelExecution (CancelExecution cm eid).2 eid).2.fired = cm.fired ++ [t])
    ∧ (lookupExec eid cm.executions = none →
      (CancelExecution cm eid).1 = false
      ∧ (CancelExecution (CancelExecution cm eid).2 eid).1 = false
      ∧ (CancelExecution (CancelExecution cm eid).2 eid).2.fired = cm.fired) := by
  constructor
  · intro t ht
    have hnone := lookupExec_filter_self eid cm.executions
    simp [CancelExecution, RemoveExecution, ht, hnone]
  · intro hn
    simp [CancelExecution, hn]

/-- C4 witness: a registry holding run `run1` with trigger `7`. -/
theorem cancelExecution_idempotent_witness :
    (CancelExecution ⟨[("run1", 7)], []⟩ "run1").1 = true
    ∧ (CancelExecution (CancelExecution ⟨[("run1", 7)], []⟩ "run1").2 "run1").1 = false
    ∧ lookupExec "run1" (CancelExecution ⟨[("run1", 7)], []⟩ "run1").2.executions = none
    ∧ (CancelExecution (CancelExecution ⟨[("run1", 7)], []⟩ "run1").2 "run1").2.fired = [7]
    ∧ (CancelExecution ⟨[("run2", 5)], []⟩ "run1").1 = false := by
  have h := (cancelExecution_idempotent ⟨[("run1", 7)], []⟩ "run1").1 7 (by decide)
  have h2 := (cancelExecution_idempotent ⟨[("run2", 5)], []⟩ "run1").2 (by decide)
  exact ⟨h.1, h.2.1, h.2.2.1, h.2.2.2.2, h2.1⟩

/- ===== C1: GetOrCreateSession identifier handling ===== -/

/-- C1 counterexample.  A non-empty identifier that is not present in the
store IS adopted as the new session identifier: with an empty store, a
request for `abc123` creates and returns a session whose id is `abc123`,
not the freshly generated unguessable id.  This refutes the claim that
an unknown non-empty caller-supplied identifier is never adopted. -/
theorem getOrCreateSession_adopts_unknown_id :
    lookupSession "abc123" ([] : SessionMap) = none
    ∧ (GetOrCreateSession [] "abc123" (generateSessionID "00cafe") 5).1.id = "abc123"
    ∧ (GetOrCreateSession [] "abc123" (generateSessionID "00cafe") 5).1.id
        ≠ generateSessionID "00cafe" := by
  refine ⟨rfl, rfl, ?_⟩
  decide

/-- C1 amended.  `GetOrCreateSession` generates a fresh identifier only
when the caller supplies an empty one; a non-empty unknown identifier is
adopted as-is with a new empty session created under it; an identifier
already present returns the existing session with a refreshed
last-activity timestamp. -/
theorem getOrCreateSession_behavior (store : SessionMap)
    (reqID freshID : String) (now : Nat) :
    (reqID = "" → lookupSession freshID store = none →
      GetOrCreateSession store reqID freshID now
        = (⟨freshID, [], now, now⟩, (freshID, ⟨freshID, [], now, now⟩) :: store))
    ∧ (reqID ≠ "" → lookupSession reqID store = none →
      GetOrCreateSession store reqID freshID now
        = (⟨reqID, [], now, now⟩, (reqID, ⟨reqID, [], now, now⟩) :: store))
    ∧ (∀ s, reqID ≠ "" → lookupSession reqID store = some s →
      (GetOrCreateSession store reqID freshID now).1 = { s with updated := now }) := by
  refine ⟨?_, ?_, ?_⟩
  · intro he hl
    simp [GetOrCreateSession, he, hl]
  · intro hne hl
    simp [GetOrCreateSession, hne, hl]
  · intro s hne hl
    simp [GetOrCreateSession, hne, hl]

/-- C1 witness: all three behaviors at concrete inputs over the store
holding only session `known`. -/
theorem getOrCreateSession_behavior_witness :
    (GetOrCreateSession [("known", ⟨"known", [], 0, 0⟩)] "" "session_f1" 3).1.id
      = "session_f1"
    ∧ (GetOrCreateSession [("known", ⟨"known", [], 0, 0⟩)] "newid" "session_f1" 3).1.id
      = "newid"
    ∧ (GetOrCreateSession [("known", ⟨"known", [], 0, 0⟩)] "known" "session_f1" 3).1
      = ⟨"known", [], 0, 3⟩ := by
  have h1 := (getOrCreateSession_behavior [("known", ⟨"known", [], 0, 0⟩)]
    "" "session_f1" 3).1 rfl (by decide)
  have h2 := (getOrCreateSession_behavior [("known", ⟨"known", [], 0, 0⟩)]
    "newid" "session_f1" 3).2.1 (by decide) (by decide)
  have h3 := (getOrCreateSession_behavior [("known", ⟨"known", [], 0, 0⟩)]
    "known" "session_f1" 3).2.2 ⟨"known", [], 0, 0⟩ (by decide) (by decide)
  refine ⟨?_, ?_, ?_⟩
  · rw [h1]
  · rw [h2]
  · rw [h3]

/- ===== C3: session operations never fail ===== -/

/-- C3 counterexample.  `GetRecentMessages` panics for a negative limit:
on a freshly created session (no messages, zero backing capacity) with
limit `-1`, the Go slice expression `Messages[len-limit:]` is
`Messages[1:]` on a slice of capacity 0, a slice-bounds panic (`none` in
the embedding), where the claim promises the ordinary result `some []`
(all messages, since the session holds fewer than the limit). -/
theorem getRecentMessages_negative_limit_panics :
    GetRecentMessages [] 0 (-1) = none
    ∧ GetRecentMessages [] 0 (-1) ≠ some ([] : List ChatMessage) := by
  refine ⟨rfl, ?_⟩
  decide

/-- C3 amended.  For every non-negative limit (and any backing capacity at
least the length, which Go guarantees), `GetRecentMessages` never fails
and returns the last `limit` messages, or all messages if the session
holds fewer; absence in `GetSession` and `DeleteSession` is reported only
as a not-found result with the store unchanged.  (For a negative limit the
code can panic, as the counterexample shows.) -/
theorem sessionOps_never_fail (msgs : List ChatMessage) (cap : Nat)
    (limit : Int) (store : SessionMap) (sid : String) (now : Nat) :
    (msgs.length ≤ cap → 0 ≤ limit →
      GetRecentMessages msgs cap limit
        = some (msgs.drop (msgs.length - limit.toNat)))
    ∧ (lookupSession sid store = none →
      GetSession store sid now = ((none, false), store))
    ∧ (lookupSession sid store = none →
      DeleteSession store sid = (false, store)) := by
  refine ⟨?_, ?_, ?_⟩
  · intro hcap hlim
    by_cases hle : (msgs.length : Int) ≤ limit
    · have h0 : msgs.length - limit.toNat = 0 := by omega
      simp [GetRecentMessages, hle, h0]
    · have hst : ((msgs.length : Int) - limit) ≤ (cap : Int) := by omega
      have htn : ((msgs.length : Int) - limit).toNat = msgs.length - limit.toNat := by
        omega
      simp [GetRecentMessages, hle, hst, htn]
  · intro hl
    simp [GetSession, hl]
  · intro hl
    simp [DeleteSession, hl]

/-- C3 witness: three messages with limit 2 yield the last two; lookup and
delete on an absent id report not-found. -/
theorem sessionOps_never_fail_witness :
    GetRecentMessages
        [⟨"user", lc "a", 0⟩, ⟨"assistant", lc "b", 1⟩, ⟨"user", lc "c", 2⟩] 4 2
      = some [⟨"assistant", lc "b", 1⟩, ⟨"user", lc "c", 2⟩]
    ∧ GetSession [] "ghost" 9 = ((none, false), [])
    ∧ DeleteSession [] "ghost" = (false, []) := by
  have h := sessionOps_never_fail
    [⟨"user", lc "a", 0⟩, ⟨"assistant", lc "b", 1⟩, ⟨"user", lc "c", 2⟩] 4 2
    [] "ghost" 9
  refine ⟨?_, h.2.1 rfl, h.2.2 rfl⟩
  rw [h.1 (by decide) (by decide)]
  decide

/- ===== C10: GetAllSessions snapshot aliasing ===== -/

/-- C10 counterexample.  The snapshot returned by `GetAllSessions` shares
the session objects with the store: mutating the session reachable
through the snapshot pointer (`AddMessageRef` on reference 0, which the
snapshot contains) changes what the store itself presents for that
session id, refuting the claim that such mutation leaves the store
unchanged. -/
theorem getAllSessions_aliases_store :
    GetAllSessions ⟨[⟨"s1", [], 0, 0⟩], [("s1", 0)]⟩ = [0]
    ∧ sessionOf (AddMessageRef ⟨[⟨"s1", [], 0, 0⟩], [("s1", 0)]⟩ 0 "user" (lc "hi") 1) "s1"
        ≠ sessionOf ⟨[⟨"s1", [], 0, 0⟩], [("s1", 0)]⟩ "s1" := by
  refine ⟨rfl, ?_⟩
  decide

/-- C10 amended.  `GetAllSessions` returns a freshly allocated slice, so
the slice container does not alias the store map (mutating a session does
not disturb the snapshot reference list), but the Session objects are
shared by reference: a message appended through a snapshot pointer is
visible in the session the store presents for that identifier. -/
theorem getAllSessions_snapshot_semantics (st : MemoryStoreP) (sid : String)
    (r : Nat) (s : ChatSession) (role : String) (content : Str) (now : Nat) :
    (refOf sid st.entries = some r → sessionAt st r = some s →
      sessionOf (AddMessageRef st r role content now) sid
        = some (AddMessage s role content now))
    ∧ GetAllSessions (AddMessageRef st r role content now) = GetAllSessions st := by
  constructor
  · intro href hat
    simp only [sessionAt] at hat
    have hset : (st.heap.set r (AddMessage s role content now))[r]?
        = some (AddMessage s role content now) := by
      rw [List.getElem?_set_self']
      simp [hat]
    simp [AddMessageRef, hat, sessionOf, href, sessionAt, hset]
  · cases hat : st.heap[r]? with
    | none => simp [AddMessageRef, hat]
    | some s0 => simp [AddMessageRef, hat, GetAllSessions]

/-- C10 witness: the sharing and the container freshness at a concrete
store with one session. -/
theorem getAllSessions_snapshot_semantics_witness :
    sessionOf (AddMessageRef ⟨[⟨"s1", [], 0, 0⟩], [("s1", 0)]⟩ 0 "user" (lc "hi") 1) "s1"
      = some ⟨"s1", [⟨"user", lc "hi", 1⟩], 0, 1⟩
    ∧ GetAllSessions (AddMessageRef ⟨[⟨"s1", [], 0, 0⟩], [("s1", 0)]⟩ 0 "user" (lc "hi") 1)
      = GetAllSessions ⟨[⟨"s1", [], 0, 0⟩], [("s1", 0)]⟩ := by
  have h := getAllSessions_snapshot_semantics ⟨[⟨"s1", [], 0, 0⟩], [("s1", 0)]⟩
    "s1" 0 ⟨"s1", [], 0, 0⟩ "user" (lc "hi") 1
  refine ⟨?_, h.2⟩
  rw [h.1 rfl rfl]
  rfl

/- ===== C2: cancellation emits stopped, commits no assistant message ===== -/

/-- C2.  A streaming run cancelled via the Execution Registry mid-execution
(the run context is cancelled, so the engine call returns an error, and a
real cancellation error never carries the parse-failure marker) emits the
stopped event and nothing else after the prefix events — in particular no
error and no final-answer (response) event — and the session ends exactly
as it was just after the initial human-message append. -/
theorem streamCancelStopsRun (msgs0 : List ChatMessage) (sid eid : String)
    (rm : Str) (e : Str) (now : Nat) :
    containsSub parseMarker e = false →
    handleStreamChat msgs0 sid eid rm (Except.error e) CtxStatus.canceled now
      = (streamPreEvents sid eid ++ [stoppedEv], msgs0 ++ [⟨"user", rm, now⟩])
    ∧ ∀ ev ∈ (handleStreamChat msgs0 sid eid rm (Except.error e)
        CtxStatus.canceled now).1,
        ev.type ≠ "error" ∧ ev.type ≠ "response" := by
  intro h
  have hrun : handleStreamChat msgs0 sid eid rm (Except.error e)
      CtxStatus.canceled now
      = (streamPreEvents sid eid ++ [stoppedEv], msgs0 ++ [⟨"user", rm, now⟩]) := by
    simp [handleStreamChat, executeWithStreaming, h]
  refine ⟨hrun, ?_⟩
  rw [hrun]
  intro ev hev
  simp only [streamPreEvents, stoppedEv, List.cons_append, List.nil_append,
    List.mem_cons, List.not_mem_nil, or_false] at hev
  rcases hev with rfl | rfl | rfl | rfl | rfl
  · exact ⟨(by decide : ("session" : String) ≠ "error"),
      (by decide : ("session" : String) ≠ "response")⟩
  · exact ⟨(by decide : ("execution_started" : String) ≠ "error"),
      (by decide : ("execution_started" : String) ≠ "response")⟩
  · exact ⟨(by decide : ("thinking" : String) ≠ "error"),
      (by decide : ("thinking" : String) ≠ "response")⟩
  · exact ⟨(by decide : ("thinking" : String) ≠ "error"),
      (by decide : ("thinking" : String) ≠ "response")⟩
  · exact ⟨(by decide : ("stopped" : String) ≠ "error"),
      (by decide : ("stopped" : String) ≠ "response")⟩

/-- C2 witness: a concrete cancelled run (engine reports the Go error
`context canceled`). -/
theorem streamCancelStopsRun_witness :
    handleStreamChat [] "s1" "exec_1" (lc "hello")
        (Except.error (lc "context canceled")) CtxStatus.canceled 0
      = (streamPreEvents "s1" "exec_1" ++ [stoppedEv],
         [⟨"user", lc "hello", 0⟩]) := by
  have h := (streamCancelStopsRun [] "s1" "exec_1" (lc "hello")
    (lc "context canceled") 0 (by decide)).1
  rw [h]
  rfl

/- ===== C9: timeout surfacing in the streaming path ===== -/

/-- C9 evaluation (code bug).  When a streaming run hits its context
deadline, `executeWithStreaming` does produce the distinct timeout error
`request timed out after 300 seconds`, but that string does not contain
`context`, so `getErrorMessage` maps it to the GENERIC failure message,
and the error event streamed to the caller carries that generic message —
it does not state that the request timed out.  (The non-streaming path
passes the raw `context deadline exceeded` error to `getErrorMessage`,
which does hit the timeout branch, confirming the intended design.) -/
theorem streamTimeoutSurfacesGenericMessage :
    (executeWithStreaming (Except.error (lc "context deadline exceeded"))
        CtxStatus.deadlineExceeded).1 = Except.error timeoutMsg
    ∧ (handleStreamChat [] "s" "e" (lc "hi")
        (Except.error (lc "context deadline exceeded"))
        CtxStatus.deadlineExceeded 0).1
      = streamPreEvents "s" "e" ++ [⟨"error", genericFailureMsg, false⟩]
    ∧ getErrorMessage timeoutMsg = genericFailureMsg
    ∧ containsSub (lc "timed out") genericFailureMsg = false
    ∧ getErrorMessage (lc "context deadline exceeded")
      = lc "I encountered an error processing your request. The request timed out. Please try a simpler request." := by
  refine ⟨by decide, by decide, by decide, by decide, by decide⟩

/- ===== C6: wrapping of plain prose ===== -/

/-- C6.  Every raw engine string whose cleaned form contains none of the
structural keywords, is longer than 50 bytes, is non-empty and does not
read like a refusal is wrapped verbatim into the minimal single-step
trace ending in the final-answer marker. -/
theorem sanitizerWrapsPlainProse (raw : Str) :
    hasAgentFormat (cleanCore raw) = false →
    cleanCore raw ≠ [] →
    50 < utf8Len (cleanCore raw) →
    containsSub refusalPat (lowerStr (cleanCore raw)) = false →
    cleanAgentResponse raw = wrapPrefix ++ cleanCore raw := by
  intro h1 h2 h3 h4
  have hcond : hasAgentFormat (cleanCore raw) = false ∧ cleanCore raw ≠ [] ∧
      50 < utf8Len (cleanCore raw) ∧
      containsSub refusalPat (lowerStr (cleanCore raw)) = false :=
    ⟨h1, h2, h3, h4⟩
  have hne : ¬(wrapPrefix ++ cleanCore raw = []) := by
    intro hcn
    exact absurd (List.append_eq_nil.mp hcn).1 (by decide)
  simp only [cleanAgentResponse]
  rw [if_pos hcond, if_neg hne]

set_option maxRecDepth 100000 in
/-- C6 witness: a hidden-reasoning block followed by plain prose with no
structural keywords and more than 50 characters is wrapped verbatim. -/
theorem sanitizerWrapsPlainProse_witness :
    cleanAgentResponse (lc "<think>I reason about France in here</think>The capital of France is Paris and it has been the capital for many centuries.")
      = wrapPrefix ++ lc "The capital of France is Paris and it has been the capital for many centuries." := by
  have h := sanitizerWrapsPlainProse
    (lc "<think>I reason about France in here</think>The capital of France is Paris and it has been the capital for many centuries.")
    (by decide) (by decide) (by decide) (by decide)
  rw [h]
  decide

/- ===== C8: idempotence on already-clean trace-formatted text ===== -/

/-- C8.  The sanitizer is idempotent on already-clean trace-formatted
text: when the normalization core has nothing to change (`cleanCore x = x`)
and the text is trace-formatted, a second application of
`cleanAgentResponse` yields exactly the result of the first. -/
theorem sanitizerIdempotentOnClean (x : Str) :
    cleanCore x = x → hasAgentFormat x = true →
    cleanAgentResponse (cleanAgentResponse x) = cleanAgentResponse x := by
  intro hc hf
  have hx : cleanAgentResponse x = x := by
    have hncond : ¬(hasAgentFormat x = false ∧ x ≠ [] ∧ 50 < utf8Len x ∧
        containsSub refusalPat (lowerStr x) = false) := by
      rintro ⟨hff, -⟩
      rw [hf] at hff
      exact absurd hff (by decide)
    have hnil : ¬(x = []) := by
      intro h0
      rw [h0] at hf
      exact absurd hf (by decide)
    simp only [cleanAgentResponse, hc]
    rw [if_neg hncond, if_neg hnil]
  rw [hx, hx]

/-- C8 witness: a clean two-line trace. -/
theorem sanitizerIdempotentOnClean_witness :
    cleanAgentResponse (cleanAgentResponse (lc "Thought: inspect the system\nFinal Answer: done"))
      = cleanAgentResponse (lc "Thought: inspect the system\nFinal Answer: done") :=
  sanitizerIdempotentOnClean (lc "Thought: inspect the system\nFinal Answer: done")
    (by decide) (by decide)

/- ===== C7 counterexample ===== -/

/-- C7 counterexample.  An unterminated `<think>` marker is stripped only
through the end of its LINE, not through the end of the text: on
`<think>secret stuff\nVISIBLE` the sanitizer keeps the second line, so its
output is `VISIBLE` — not the fallback message that an empty result (as
the claim would have it, everything removed through end-of-text) would
produce. -/
theorem unterminatedThinkKeepsLaterLines :
    cleanAgentResponse (lc "<think>secret stuff\nVISIBLE") = lc "VISIBLE"
    ∧ lc "VISIBLE" ≠ fallbackMsg
    ∧ containsSub (lc "VISIBLE")
        (cleanAgentResponse (lc "<think>secret stuff\nVISIBLE")) = true := by
  refine ⟨by decide, by decide, by decide⟩

/- ===== C5: single-shot recovery from parse failures ===== -/

theorem isPrefixBy_of_append (eq : Char → Char → Bool) :
    ∀ (p q l : Str), isPrefixBy eq (p ++ q) l = true → isPrefixBy eq p l = true
  | [], _, _, _ => rfl
  | _ :: _, _, [], h => by simp [isPrefixBy] at h
  | a :: as, q, c :: cs, h => by
    simp only [List.cons_append, isPrefixBy, Bool.and_eq_true] at h ⊢
    exact ⟨h.1, isPrefixBy_of_append eq as q cs h.2⟩

theorem splitFirstBy_isSome_mono (eq : Char → Char → Bool) (p q : Str) :
    ∀ l : Str, (splitFirstBy eq (p ++ q) l).isSome = true →
      (splitFirstBy eq p l).isSome = true := by
  intro l
  induction l with
  | nil =>
    intro h
    by_cases hp : isPrefixBy eq (p ++ q) [] = true
    · have hq := isPrefixBy_of_append eq p q [] hp
      simp [splitFirstBy, hq]
    · rw [Bool.not_eq_true] at hp
      simp [splitFirstBy, hp] at h
  | cons c cs ih =>
    intro h
    by_cases hp : isPrefixBy eq (p ++ q) (c :: cs) = true
    · have hq := isPrefixBy_of_append eq p q (c :: cs) hp
      simp [splitFirstBy, hq]
    · rw [Bool.not_eq_true] at hp
      simp only [splitFirstBy, hp, Bool.false_eq_true, if_false] at h
      cases hs : splitFirstBy eq (p ++ q) cs with
      | none => rw [hs] at h; simp at h
      | some pr =>
        have h2 := ih (by rw [hs]; rfl)
        by_cases hp2 : isPrefixBy eq p (c :: cs) = true
        · simp [splitFirstBy, hp2]
        · rw [Bool.not_eq_true] at hp2
          simp only [splitFirstBy, hp2, Bool.false_eq_true, if_false]
          cases ht : splitFirstBy eq p cs with
          | none => rw [ht] at h2; simp at h2
          | some pr2 => simp

/-- C5.  Whenever the reasoning engine output is rejected by the trace
parser (the error carries the `unable to parse agent output: ` marker and
`raw` is the rejected raw text after it) and the run context has not hit
its deadline, the orchestrator performs exactly one recovery pass (the
sanitizer-invocation count is 1): when the re-sanitized text contains the
final-answer marker the run succeeds with the trimmed text after the first
`Final Answer:`, and otherwise the run fails with the distinct
malformed-response error. -/
theorem parseFailureRecoversOnce (e pre raw : Str) (ctx : CtxStatus) :
    splitFirstCS parseMarkerColon e = some (pre, raw) →
    ctx ≠ CtxStatus.deadlineExceeded →
    (executeWithStreaming (Except.error e) ctx).2 = 1
    ∧ (containsSub finalAnswerKW (cleanAgentResponse raw) = true →
       (executeWithStreaming (Except.error e) ctx).1
         = Except.ok (extractFinalAnswer (cleanAgentResponse raw)))
    ∧ (containsSub finalAnswerKW (cleanAgentResponse raw) = false →
       (executeWithStreaming (Except.error e) ctx).1 = Except.error malformedMsg) := by
  intro hsplit hctx
  have hcontains : containsSub parseMarker e = true := by
    have hsplit2 : splitFirstBy (fun a b => a == b) (parseMarker ++ lc ": ") e
        = some (pre, raw) := hsplit
    apply splitFirstBy_isSome_mono (fun a b => a == b) parseMarker (lc ": ") e
    rw [hsplit2]
    rfl
  by_cases hFA : containsSub finalAnswerKW (cleanAgentResponse raw) = true
  · have hne : cleanAgentResponse raw ≠ [] := by
      intro h0
      rw [h0] at hFA
      exact absurd hFA (by decide)
    have hstep : executeWithStreaming (Except.error e) ctx
        = (Except.ok (extractFinalAnswer (cleanAgentResponse raw)), 1) := by
      simp only [executeWithStreaming, hcontains, hsplit, eq_self_iff_true, if_true]
      rw [if_pos ⟨hne, hFA⟩]
    refine ⟨by rw [hstep], fun _ => by rw [hstep], fun hf => ?_⟩
    rw [hf] at hFA
    exact absurd hFA (by decide)
  · have hFA2 : containsSub finalAnswerKW (cleanAgentResponse raw) = false := by
      revert hFA
      cases containsSub finalAnswerKW (cleanAgentResponse raw) <;> simp
    have hncond : ¬(cleanAgentResponse raw ≠ [] ∧
        containsSub finalAnswerKW (cleanAgentResponse raw) = true) := by
      rintro ⟨-, hff⟩
      exact hFA hff
    have hstep : executeWithStreaming (Except.error e) ctx
        = (Except.error malformedMsg, 1) := by
      simp only [executeWithStreaming, hcontains, hsplit, eq_self_iff_true, if_true]
      rw [if_neg hncond]
      simp [hctx]
    refine ⟨by rw [hstep], fun hf => ?_, fun _ => by rw [hstep]⟩
    rw [hf] at hFA2
    exact absurd hFA2 (by decide)

set_option maxRecDepth 100000 in
/-- C5 witness: a parse failure whose raw text already carries a final
answer is recovered to that answer with exactly one sanitizer pass. -/
theorem parseFailureRecoversOnce_witness :
    executeWithStreaming
        (Except.error (lc "unable to parse agent output: Final Answer: 42"))
        CtxStatus.active
      = (Except.ok (lc "42"), 1) := by
  have h := parseFailureRecoversOnce
    (lc "unable to parse agent output: Final Answer: 42") [] (lc "Final Answer: 42")
    CtxStatus.active (by decide) (by decide)
  have h1 := h.2.1 (by decide)
  have h2 := h.1
  have h3 : extractFinalAnswer (cleanAgentResponse (lc "Final Answer: 42"))
      = lc "42" := by decide
  rw [h3] at h1
  have hpair : executeWithStreaming
      (Except.error (lc "unable to parse agent output: Final Answer: 42"))
      CtxStatus.active
      = ((executeWithStreaming
          (Except.error (lc "unable to parse agent output: Final Answer: 42"))
          CtxStatus.active).1,
         (executeWithStreaming
          (Except.error (lc "unable to parse agent output: Final Answer: 42"))
          CtxStatus.active).2) := rfl
  rw [hpair, h1, h2]

/- ===== C7 amended infrastructure ===== -/

theorem splitFirstCI_cons (pat : Str) (c : Char) (cs : Str) :
    splitFirstCI pat (c :: cs)
      = if isPrefixBy charCI pat (c :: cs) then some ([], (c :: cs).drop pat.length)
        else
          match splitFirstCI pat cs with
          | some (pre, rest) => some (c :: pre, rest)
          | none => none := rfl

theorem charCI_self (c : Char) : charCI c c = true := by
  simp [charCI]

theorem isPrefixBy_charCI_self : ∀ (p t : Str), isPrefixBy charCI p (p ++ t) = true
  | [], _ => rfl
  | c :: ps, t => by
    simp only [List.cons_append, isPrefixBy, Bool.and_eq_true]
    exact ⟨charCI_self c, isPrefixBy_charCI_self ps t⟩

theorem splitFirstCI_self (pat l : Str) (h : pat ≠ []) :
    splitFirstCI pat (pat ++ l) = some ([], l) := by
  cases pat with
  | nil => exact absurd rfl h
  | cons x xs =>
    rw [List.cons_append, splitFirstCI_cons]
    rw [if_pos (by rw [← List.cons_append]; exact isPrefixBy_charCI_self (x :: xs) l)]
    simp [List.drop_left]

theorem splitFirstCI_shift (pt : Str) :
    ∀ (a : Str) (l : Str), (∀ ch ∈ a, charCI '<' ch = false) →
      splitFirstCI ('<' :: pt) (a ++ l)
        = (splitFirstCI ('<' :: pt) l).map (fun pr => (a ++ pr.1, pr.2)) := by
  intro a
  induction a with
  | nil =>
    intro l _
    cases h : splitFirstCI ('<' :: pt) l with
    | none => simp [h]
    | some pr => simp [h]
  | cons x a' ih =>
    intro l ha
    have hx : charCI '<' x = false := ha x (by simp)
    have ha' : ∀ ch ∈ a', charCI '<' ch = false := fun ch hch => ha ch (by simp [hch])
    rw [List.cons_append, splitFirstCI_cons]
    rw [if_neg (by simp [isPrefixBy, hx])]
    rw [ih l ha']
    cases h : splitFirstCI ('<' :: pt) l with
    | none => simp [h]
    | some pr => simp [h]

theorem splitFirstCI_none_of_nolt (pt : Str) :
    ∀ a : Str, (∀ ch ∈ a, charCI '<' ch = false) →
      splitFirstCI ('<' :: pt) a = none := by
  intro a
  induction a with
  | nil => intro _; rfl
  | cons x a' ih =>
    intro ha
    have hx : charCI '<' x = false := ha x (by simp)
    rw [splitFirstCI_cons]
    rw [if_neg (by simp [isPrefixBy, hx])]
    rw [ih (fun ch hch => ha ch (by simp [hch]))]

theorem dropWhile_not_newline (b c2 : Str) (hb : ∀ ch ∈ b, ch ≠ '\n') :
    (b ++ '\n' :: c2).dropWhile (fun ch => !(ch == '\n')) = '\n' :: c2 := by
  induction b with
  | nil => simp [List.dropWhile_cons]
  | cons x b' ih =>
    have hx : (x == '\n') = false := beq_eq_false_iff_ne.mpr (hb x (by simp))
    rw [List.cons_append, List.dropWhile_cons]
    simp only [hx, Bool.not_false, if_true]
    exact ih (fun ch hch => hb ch (by simp [hch]))

theorem stripPairedF_succ_found (opn cls : Str) (f : Nat) {l pre rest mid after : Str}
    (h1 : splitFirstCI opn l = some (pre, rest))
    (h2 : splitFirstCI cls rest = some (mid, after)) :
    stripPairedF opn cls (f + 1) l = pre ++ stripPairedF opn cls f after := by
  simp only [stripPairedF, h1, h2]

theorem stripPairedF_id_noclose (opn cls : Str) {l pre rest : Str}
    (h1 : splitFirstCI opn l = some (pre, rest))
    (h2 : splitFirstCI cls rest = none) :
    ∀ f, stripPairedF opn cls f l = l
  | 0 => rfl
  | f + 1 => by simp only [stripPairedF, h1, h2]

theorem stripOpenLineF_succ_found (opn : Str) (f : Nat) {l pre rest : Str}
    (h1 : splitFirstCI opn l = some (pre, rest)) :
    stripOpenLineF opn (f + 1) l
      = pre ++ stripOpenLineF opn f (rest.dropWhile (fun c => !(c == '\n'))) := by
  simp only [stripOpenLineF, h1]

theorem stripOpenLineF_id (opn : Str) {l : Str}
    (h1 : splitFirstCI opn l = none) :
    ∀ f, stripOpenLineF opn f l = l
  | 0 => rfl
  | f + 1 => by simp only [stripOpenLineF, h1]

/-- C7 amended.  For every input containing an opening hidden-reasoning
marker with no matching closing marker, the sanitizer removes that marker
and every character from it through the end of its LINE — content on
subsequent lines is retained — in addition to removing all properly
paired hidden-reasoning blocks together with their markers (the paired
block may span lines).  Here `a ++ <think> ++ p ++ </think> ++ m ++
<think> ++ b ++ \n ++ c2` is a general such input: the fragments carry no
`<` (so the markers shown are the only marker occurrences) and `b` (the
unterminated marker tail up to the line end) has no newline. -/
theorem unterminatedThinkStripsToLineEnd (a p m b c2 : Str)
    (ha : ∀ ch ∈ a, charCI '<' ch = false)
    (hp : ∀ ch ∈ p, charCI '<' ch = false)
    (hm : ∀ ch ∈ m, charCI '<' ch = false)
    (hb : ∀ ch ∈ b, charCI '<' ch = false)
    (hc : ∀ ch ∈ c2, charCI '<' ch = false)
    (hbn : ∀ ch ∈ b, ch ≠ '\n') :
    stripThinkTags
        (a ++ thinkOpen ++ p ++ thinkClose ++ m ++ thinkOpen ++ b ++ '\n' :: c2)
      = a ++ m ++ '\n' :: c2 := by
  have hto : thinkOpen = '<' :: lc "think>" := rfl
  have htc : thinkClose = '<' :: lc "/think>" := rfl
  have hlt : charCI '<' '\n' = false := by decide
  simp only [List.append_assoc]
  -- the right-assoc suffixes
  have e1 : splitFirstCI thinkOpen
      (a ++ (thinkOpen ++ (p ++ (thinkClose ++ (m ++ (thinkOpen ++ (b ++ '\n' :: c2)))))))
      = some (a, p ++ (thinkClose ++ (m ++ (thinkOpen ++ (b ++ '\n' :: c2))))) := by
    have h0 : splitFirstCI thinkOpen
        (thinkOpen ++ (p ++ (thinkClose ++ (m ++ (thinkOpen ++ (b ++ '\n' :: c2))))))
        = some ([], p ++ (thinkClose ++ (m ++ (thinkOpen ++ (b ++ '\n' :: c2))))) :=
      splitFirstCI_self thinkOpen _ (by rw [hto]; simp)
    rw [hto] at h0 ⊢
    rw [splitFirstCI_shift (lc "think>") a _ ha, h0]
    simp
  have e2 : splitFirstCI thinkClose
      (p ++ (thinkClose ++ (m ++ (thinkOpen ++ (b ++ '\n' :: c2)))))
      = some (p, m ++ (thinkOpen ++ (b ++ '\n' :: c2))) := by
    have h0 : splitFirstCI thinkClose
        (thinkClose ++ (m ++ (thinkOpen ++ (b ++ '\n' :: c2))))
        = some ([], m ++ (thinkOpen ++ (b ++ '\n' :: c2))) :=
      splitFirstCI_self thinkClose _ (by rw [htc]; simp)
    rw [htc] at h0 ⊢
    rw [splitFirstCI_shift (lc "/think>") p _ hp, h0]
    simp
  have e3 : splitFirstCI thinkOpen (m ++ (thinkOpen ++ (b ++ '\n' :: c2)))
      = some (m, b ++ '\n' :: c2) := by
    have h0 : splitFirstCI thinkOpen (thinkOpen ++ (b ++ '\n' :: c2))
        = some ([], b ++ '\n' :: c2) :=
      splitFirstCI_self thinkOpen _ (by rw [hto]; simp)
    rw [hto] at h0 ⊢
    rw [splitFirstCI_shift (lc "think>") m _ hm, h0]
    simp
  have e4 : splitFirstCI thinkClose (b ++ '\n' :: c2) = none := by
    rw [htc]
    apply splitFirstCI_none_of_nolt
    intro ch hch
    rcases List.mem_append.mp hch with h | h
    · exact hb ch h
    · rcases List.mem_cons.mp h with rfl | h2
      · exact hlt
      · exact hc ch h2
  have hpair : stripPaired thinkOpen thinkClose
      (a ++ (thinkOpen ++ (p ++ (thinkClose ++ (m ++ (thinkOpen ++ (b ++ '\n' :: c2)))))))
      = a ++ (m ++ (thinkOpen ++ (b ++ '\n' :: c2))) := by
    have hpos : 0 < (a ++ (thinkOpen ++ (p ++ (thinkClose ++
        (m ++ (thinkOpen ++ (b ++ '\n' :: c2))))))).length := by
      simp only [List.length_append]
      have h7 : thinkOpen.length = 7 := rfl
      omega
    obtain ⟨f, hf⟩ := Nat.exists_eq_succ_of_ne_zero (Nat.pos_iff_ne_zero.mp hpos)
    simp only [stripPaired]
    rw [hf, stripPairedF_succ_found thinkOpen thinkClose f e1 e2]
    rw [stripPairedF_id_noclose thinkOpen thinkClose e3 e4 f]
  have e5 : splitFirstCI thinkOpen (a ++ (m ++ (thinkOpen ++ (b ++ '\n' :: c2))))
      = some (a ++ m, b ++ '\n' :: c2) := by
    have h0 : splitFirstCI thinkOpen (thinkOpen ++ (b ++ '\n' :: c2))
        = some ([], b ++ '\n' :: c2) :=
      splitFirstCI_self thinkOpen _ (by rw [hto]; simp)
    rw [hto] at h0 ⊢
    rw [splitFirstCI_shift (lc "think>") a _ ha,
      splitFirstCI_shift (lc "think>") m _ hm, h0]
    simp
  have e6 : splitFirstCI thinkOpen ('\n' :: c2) = none := by
    rw [hto]
    apply splitFirstCI_none_of_nolt
    intro ch hch
    rcases List.mem_cons.mp hch with rfl | h2
    · exact hlt
    · exact hc ch h2
  have hopen : stripOpenLine thinkOpen (a ++ (m ++ (thinkOpen ++ (b ++ '\n' :: c2))))
      = (a ++ m) ++ ('\n' :: c2) := by
    have hpos : 0 < (a ++ (m ++ (thinkOpen ++ (b ++ '\n' :: c2)))).length := by
      simp only [List.length_append]
      have h7 : thinkOpen.length = 7 := rfl
      omega
    obtain ⟨g, hg⟩ := Nat.exists_eq_succ_of_ne_zero (Nat.pos_iff_ne_zero.mp hpos)
    simp only [stripOpenLine]
    rw [hg, stripOpenLineF_succ_found thinkOpen g e5]
    rw [dropWhile_not_newline b c2 hbn]
    rw [stripOpenLineF_id thinkOpen e6 g]
  rw [stripThinkTags, hpair, hopen]
  simp [List.append_assoc]

set_option maxRecDepth 100000 in
/-- C7 amended witness: a paired block spanning two lines is removed
entirely; the unterminated marker is removed through its line end and the
following line survives. -/
theorem unterminatedThinkStripsToLineEnd_witness :
    stripThinkTags (lc "A: " ++ thinkOpen ++ lc "hidden\nstuff" ++ thinkClose
        ++ lc "mid " ++ thinkOpen ++ lc "tail" ++ '\n' :: lc "rest")
      = lc "A: " ++ lc "mid " ++ '\n' :: lc "rest" :=
  unterminatedThinkStripsToLineEnd (lc "A: ") (lc "hidden\nstuff") (lc "mid ")
    (lc "tail") (lc "rest") (by decide) (by decide) (by decide) (by decide)
    (by decide) (by decide)
